import Mathlib

/-!
Verification of the multi-strategy transfer engine of
kcores-copy-performance-tester, shallowly embedded from
src/parallel_copy_linux.c and src/parallel_copy_windows.c.

Buffers and files are modelled as lists of bytes (naturals below 256),
64-bit machine arithmetic as naturals reduced modulo 2 to the 64,
while loops as fuelled recursion returning none when the fuel runs out
before the loop exits, and the assumption that each read and write call
transfers the full requested length is built into the loop models where a
claim states that assumption.
-/

/-- Constant from the source: the block size for aligned I/O. -/
def BLOCK_SIZE : Nat := 512

/-- Constant from the source: the read ceiling, 1 GiB. -/
def MAX_READ_SIZE : Nat := 1024 * 1024 * 1024

/-- Constant from the source: the mmap chunk ceiling, 512 MiB. -/
def MMAP_CHUNK_SIZE : Nat := 512 * 1024 * 1024

/-- RandomGenerator state, as in both sources: three 64-bit words. -/
structure RandomGenerator where
  seed : Nat
  multiplier : Nat
  increment : Nat

/-- The fixed generator constants set by init_random_generator in both sources. -/
def init_random_generator : RandomGenerator :=
  { seed := 0x0123456789ABCDEF, multiplier := 6364136223846793005, increment := 1 }

/-- One LCG step of fill_buffer_with_random_data:
seed = seed * multiplier + increment, on uint64_t. -/
def lcg_next (g : RandomGenerator) : RandomGenerator :=
  { g with seed := (g.seed * g.multiplier + g.increment) % 2 ^ 64 }

/-- The word loop of fill_buffer_with_random_data: starting from state g,
emit n successive updated seeds in order, returning the final state and the
emitted 64-bit words. -/
def fillWords : RandomGenerator → Nat → RandomGenerator × List Nat
  | g, 0 => (g, [])
  | g, n + 1 =>
    let g1 := lcg_next g
    let r := fillWords g1 n
    (r.1, g1.seed :: r.2)

/-- Little-endian byte decomposition of a 64-bit word, as stored by
ptr[i] = gen->seed on the little-endian targets of both sources. -/
def u64ToBytes (w : Nat) : List Nat :=
  [w % 256, w / 2 ^ 8 % 256, w / 2 ^ 16 % 256, w / 2 ^ 24 % 256,
   w / 2 ^ 32 % 256, w / 2 ^ 40 % 256, w / 2 ^ 48 % 256, w / 2 ^ 56 % 256]

/-- Bytes of the first n words of the LCG word stream from state g. -/
def wordBytes (g : RandomGenerator) (n : Nat) : List Nat :=
  ((fillWords g n).2.map u64ToBytes).flatten

/-- fill_buffer_with_random_data (linux lines 58-69, windows lines 67-78) on a
byte buffer: num_elements = size / 8 words are written in order from the front;
bytes past 8 * num_elements are left as they were. Returns the updated
generator state and the buffer contents after the call. -/
def fill_buffer_with_random_data (g : RandomGenerator) (buffer : List Nat) :
    RandomGenerator × List Nat :=
  ((fillWords g (buffer.length / 8)).1,
    wordBytes g (buffer.length / 8) ++ buffer.drop (8 * (buffer.length / 8)))

/-- Byte k of the infinite LCG byte stream from state g: byte k % 8 of the
word produced by iterate number k / 8 + 1. -/
def stream_byte (g : RandomGenerator) (k : Nat) : Nat :=
  (lcg_next^[k / 8 + 1] g).seed / 2 ^ (8 * (k % 8)) % 256

lemma fillWords_snd (g : RandomGenerator) (n : Nat) :
    (fillWords g n).2 = (List.range n).map (fun i => (lcg_next^[i + 1] g).seed) := by
  induction n generalizing g with
  | zero => rfl
  | succ n ih =>
    have h : ∀ i : Nat, lcg_next^[i + 1] (lcg_next g) = lcg_next^[i + 1 + 1] g :=
      fun i => (Function.iterate_succ_apply lcg_next (i + 1) g).symm
    simp only [fillWords, ih, List.range_succ_eq_map, List.map_cons, List.map_map,
      List.cons.injEq]
    refine ⟨by simp [Function.iterate_one], List.map_congr_left fun i _ => ?_⟩
    simp only [Function.comp_apply, h i, Nat.succ_eq_add_one]

lemma wordBytes_succ (g : RandomGenerator) (n : Nat) :
    wordBytes g (n + 1) = u64ToBytes ((lcg_next g).seed) ++ wordBytes (lcg_next g) n := by
  simp [wordBytes, fillWords]

lemma wordBytes_length (g : RandomGenerator) (n : Nat) :
    (wordBytes g n).length = 8 * n := by
  induction n generalizing g with
  | zero => rfl
  | succ n ih =>
    rw [wordBytes_succ, List.length_append, ih]
    simp [u64ToBytes]
    omega

lemma stream_byte_add_eight (g : RandomGenerator) (k : Nat) :
    stream_byte (lcg_next g) k = stream_byte g (8 + k) := by
  unfold stream_byte
  have h1 : (8 + k) / 8 = k / 8 + 1 := by omega
  have h2 : (8 + k) % 8 = k % 8 := by omega
  rw [h1, h2, Function.iterate_succ_apply lcg_next (k / 8 + 1) g]

lemma wordBytes_eq_stream (g : RandomGenerator) (n : Nat) :
    wordBytes g n = (List.range (8 * n)).map (stream_byte g) := by
  induction n generalizing g with
  | zero => rfl
  | succ n ih =>
    rw [wordBytes_succ, ih]
    have h8 : 8 * (n + 1) = 8 + 8 * n := by ring
    rw [h8, List.range_add, List.map_append, List.map_map]
    congr 1
    · show u64ToBytes ((lcg_next g).seed) = _
      have hr : List.range 8 = [0, 1, 2, 3, 4, 5, 6, 7] := by rfl
      simp only [hr, List.map_cons, List.map_nil, stream_byte, u64ToBytes]
      norm_num [Function.iterate_one]
    · exact List.map_congr_left fun k _ => by
        simp only [Function.comp_apply]
        exact stream_byte_add_eight g k

lemma fill_buffer_length (g : RandomGenerator) (b : List Nat) :
    (fill_buffer_with_random_data g b).2.length = b.length := by
  have h : 8 * (b.length / 8) ≤ b.length := by omega
  simp [fill_buffer_with_random_data, wordBytes_length]
  omega

/-- Statement of claim C1 for a generator state and two buffers of equal
length: the filled buffer is the first length / 8 LCG words in order followed
by the untouched tail bytes; the written regions of the two fills coincide;
and when the length is a multiple of 8 the whole contents coincide. -/
def FillBufferClaim (g : RandomGenerator) (b1 b2 : List Nat) : Prop :=
  (fill_buffer_with_random_data g b1).2 =
      ((List.range (b1.length / 8)).map
        (fun i => u64ToBytes ((lcg_next^[i + 1] g).seed))).flatten ++
        b1.drop (8 * (b1.length / 8)) ∧
  ((fill_buffer_with_random_data g b1).2).take (8 * (b1.length / 8)) =
      ((fill_buffer_with_random_data g b2).2).take (8 * (b2.length / 8)) ∧
  (b1.length % 8 = 0 →
      (fill_buffer_with_random_data g b1).2 = (fill_buffer_with_random_data g b2).2)

lemma fill_take_words (g : RandomGenerator) (b : List Nat) :
    ((fill_buffer_with_random_data g b).2).take (8 * (b.length / 8)) =
      wordBytes g (b.length / 8) := by
  simp only [fill_buffer_with_random_data]
  exact List.take_left' (wordBytes_length g _)

/-- C1: for every seed, multiplier, increment and byte length,
fill_buffer_with_random_data writes exactly length / 8 consecutive 64-bit
words in order, word i being iterate i of the LCG from the initial seed;
trailing bytes are unchanged; and two fills with identical generator
parameters and length produce identical written regions, hence identical
buffer contents whenever the length is a multiple of the word size. -/
theorem c1_fill_buffer_spec (g : RandomGenerator) (b1 b2 : List Nat)
    (h : b1.length = b2.length) : FillBufferClaim g b1 b2 := by
  refine ⟨?_, ?_, ?_⟩
  · simp [fill_buffer_with_random_data, wordBytes, fillWords_snd, List.map_map,
      Function.comp_def]
  · rw [fill_take_words, fill_take_words, h]
  · intro h8
    have e1 : b1.drop (8 * (b1.length / 8)) = [] :=
      List.drop_eq_nil_of_le (by omega)
    have e2 : b2.drop (8 * (b2.length / 8)) = [] :=
      List.drop_eq_nil_of_le (by omega)
    simp only [fill_buffer_with_random_data, e1, e2, List.append_nil]
    rw [h]

/-- Witness for C1 at the fixed source constants and two 16-byte buffers. -/
theorem c1_fill_buffer_spec_witness :
    (List.replicate 16 0 : List Nat).length = (List.replicate 16 1 : List Nat).length ∧
    FillBufferClaim init_random_generator (List.replicate 16 0) (List.replicate 16 1) :=
  ⟨rfl, c1_fill_buffer_spec init_random_generator _ _ rfl⟩

/-- The write loop of the Linux generate_test_file (lines 319-332), under the
assumption that every write succeeds and writes the requested length: each
iteration writes to_write = (min(remaining, 1 MiB) / 512) * 512 bytes — the
truncation to a 512 multiple is unconditional — and decrements remaining by
the amount written. Returns the total number of bytes written, or none when
the fuel runs out before the loop exits. -/
def generate_write_loop : Nat → Nat → Option Nat
  | 0, remaining => if remaining = 0 then some 0 else none
  | fuel + 1, remaining =>
    if remaining = 0 then some 0
    else
      (generate_write_loop fuel
          (remaining - min remaining (1024 * 1024) / 512 * 512)).map
        (· + min remaining (1024 * 1024) / 512 * 512)

/-- The write loop of the Windows generate_test_file (lines 326-335), under
the same full-write assumption: each iteration writes
to_write = min(remaining, 512) with no truncation. -/
def generate_write_loop_win : Nat → Nat → Option Nat
  | 0, remaining => if remaining = 0 then some 0 else none
  | fuel + 1, remaining =>
    if remaining = 0 then some 0
    else
      (generate_write_loop_win fuel (remaining - min remaining 512)).map
        (· + min remaining 512)

/-- Termination of the Linux generation write loop at a given size: some fuel
lets the loop exit. -/
def generate_write_loop_terminates (size : Nat) : Prop :=
  ∃ fuel total, generate_write_loop fuel size = some total

lemma generate_write_loop_stuck (fuel : Nat) :
    generate_write_loop fuel 100 = none := by
  induction fuel with
  | zero => rfl
  | succ f ih => simp [generate_write_loop, ih]

/-- Counterexample to C2: with every write succeeding, the Linux generation
write loop never terminates at requested size 100, because the truncated
chunk length (100 / 512) * 512 is zero and remaining never decreases. -/
theorem c2_generate_loop_counterexample : ¬ generate_write_loop_terminates 100 := by
  rintro ⟨fuel, total, h⟩
  rw [generate_write_loop_stuck fuel] at h
  exact Option.noConfusion h

/-- C2 as amended: the Linux write loop terminates writing exactly the
requested size whenever that size is a multiple of the block size 512 (which
includes 10M = 10485760), and the Windows write loop terminates writing
exactly the requested size for every size, since it writes the exact
remainder in its final chunk. -/
theorem c2_generate_loop_amended :
    (∀ size fuel, size % 512 = 0 → size ≤ 512 * fuel →
        generate_write_loop fuel size = some size) ∧
    (∀ size fuel, size ≤ 512 * fuel →
        generate_write_loop_win fuel size = some size) := by
  constructor
  · intro size fuel
    induction fuel generalizing size with
    | zero =>
      intro hmod hle
      have hz : size = 0 := by omega
      subst hz; rfl
    | succ f ih =>
      intro hmod hle
      by_cases h0 : size = 0
      · subst h0; rfl
      · have h512 : 512 ≤ size := by omega
        have hmc := min_choice size (1024 * 1024)
        have ht1 : 512 ≤ min size (1024 * 1024) / 512 * 512 := by
          rcases hmc with hm | hm <;> (rw [hm]; try omega)
        have ht2 : min size (1024 * 1024) / 512 * 512 ≤ size := by
          rcases hmc with hm | hm <;> (rw [hm]; try omega)
        have hmod2 : (size - min size (1024 * 1024) / 512 * 512) % 512 = 0 := by
          rcases hmc with hm | hm <;> (rw [hm]; try omega)
        have hle2 : size - min size (1024 * 1024) / 512 * 512 ≤ 512 * f := by
          rcases hmc with hm | hm <;> (rw [hm]; try omega)
        have hsum : size - min size (1024 * 1024) / 512 * 512 +
            min size (1024 * 1024) / 512 * 512 = size := by
          rcases hmc with hm | hm <;> (rw [hm]; try omega)
        have := ih _ hmod2 hle2
        simp only [generate_write_loop, h0, if_false, this, Option.map_some', hsum]
  · intro size fuel
    induction fuel generalizing size with
    | zero =>
      intro hle
      have hz : size = 0 := by omega
      subst hz; rfl
    | succ f ih =>
      intro hle
      by_cases h0 : size = 0
      · subst h0; rfl
      · have hle2 : size - min size 512 ≤ 512 * f := by
          rcases min_choice size 512 with hm | hm <;> (rw [hm]; try omega)
        have hsum : size - min size 512 + min size 512 = size := by
          rcases min_choice size 512 with hm | hm <;> (rw [hm]; try omega)
        have := ih _ hle2
        simp only [generate_write_loop_win, h0, if_false, this, Option.map_some', hsum]

/-- Witness for C2 as amended, at the end-to-end scenario size 10M: the Linux
loop writes exactly 10485760 bytes. -/
theorem c2_generate_loop_witness :
    10485760 % 512 = 0 ∧ 10485760 ≤ 512 * 20480 ∧
    generate_write_loop 20480 10485760 = some 10485760 :=
  ⟨by decide, by decide,
    c2_generate_loop_amended.1 10485760 20480 (by decide) (by decide)⟩

/-- The copy loop of copy_using_direct_io (linux lines 140-152, windows lines
211-221), under the assumption that each read and write of a positive length
transfers the full requested length and a read of length zero returns zero:
each iteration computes to_read = (min(remaining, MAX_READ_SIZE) / BLOCK_SIZE)
* BLOCK_SIZE, submits a read of that length, and when the read returns a
positive count writes the same count and decrements remaining; a zero read
breaks out of the loop. Returns the list of submitted read lengths and the
final value of remaining, or none when the fuel runs out first. The Windows
variant additionally clamps to_read to MAXDWORD, a no-op since to_read never
exceeds MAX_READ_SIZE, which is below MAXDWORD. Each write length equals the
corresponding read length, so the read list also describes the writes. -/
def direct_io_loop : Nat → Nat → Option (List Nat × Nat)
  | 0, remaining => if remaining = 0 then some ([], 0) else none
  | fuel + 1, remaining =>
    if remaining = 0 then some ([], 0)
    else
      if min remaining MAX_READ_SIZE / BLOCK_SIZE * BLOCK_SIZE = 0 then
        some ([min remaining MAX_READ_SIZE / BLOCK_SIZE * BLOCK_SIZE], remaining)
      else
        (direct_io_loop fuel
            (remaining - min remaining MAX_READ_SIZE / BLOCK_SIZE * BLOCK_SIZE)).map
          (fun p => (min remaining MAX_READ_SIZE / BLOCK_SIZE * BLOCK_SIZE :: p.1, p.2))

/-- Return value of the Linux copy_using_direct_io (line 157):
(remaining == 0) ? 0 : -1. -/
def copy_using_direct_io_result (fuel byte_size : Nat) : Option Int :=
  (direct_io_loop fuel byte_size).map (fun p => if p.2 = 0 then 0 else -1)

/-- Return value of the Windows copy_using_direct_io (line 226):
(remaining == 0) ? 0 : GetLastError(), where lastError models the last-error
value of the calling thread at the return point. -/
def copy_using_direct_io_result_win (fuel byte_size lastError : Nat) : Option Nat :=
  (direct_io_loop fuel byte_size).map (fun p => if p.2 = 0 then 0 else lastError)

/-- Statement of claim C3 for a block-aligned byte size: the loop exits with
remaining zero, every submitted read length is a positive multiple of the
block size and at most the read ceiling, and the strategy returns success. -/
def DirectIOAlignedClaim (byte_size fuel : Nat) : Prop :=
  ∃ reads, direct_io_loop fuel byte_size = some (reads, 0) ∧
    (∀ l ∈ reads, 0 < l ∧ l % BLOCK_SIZE = 0 ∧ l ≤ MAX_READ_SIZE) ∧
    copy_using_direct_io_result fuel byte_size = some 0

/-- C3: for every byte size that is a multiple of the block size 512, the
DirectIO copy loop, with full transfers assumed, terminates with remaining
equal to zero and returns success, and every read and write length submitted
during the loop is a positive multiple of the block size bounded by the 1 GiB
read ceiling. -/
theorem c3_direct_io_aligned (byte_size fuel : Nat)
    (hmod : byte_size % BLOCK_SIZE = 0) (hfuel : byte_size ≤ BLOCK_SIZE * fuel) :
    DirectIOAlignedClaim byte_size fuel := by
  have hB : BLOCK_SIZE = 512 := rfl
  have hM : MAX_READ_SIZE = 1073741824 := rfl
  rw [hB] at hmod hfuel
  induction fuel generalizing byte_size with
  | zero =>
    have hz : byte_size = 0 := by omega
    subst hz
    exact ⟨[], rfl, by simp, rfl⟩
  | succ f ih =>
    by_cases h0 : byte_size = 0
    · subst h0
      exact ⟨[], rfl, by simp, rfl⟩
    · have h512 : 512 ≤ byte_size := by omega
      have ht1 : 512 ≤ min byte_size 1073741824 / 512 * 512 := by
        rcases min_choice byte_size 1073741824 with hm | hm <;> (rw [hm]; try omega)
      have ht2 : min byte_size 1073741824 / 512 * 512 ≤ byte_size := by
        rcases min_choice byte_size 1073741824 with hm | hm <;> (rw [hm]; try omega)
      have htM : min byte_size 1073741824 / 512 * 512 ≤ 1073741824 := by
        rcases min_choice byte_size 1073741824 with hm | hm <;> (rw [hm]; try omega)
      have hmod2 : (byte_size - min byte_size 1073741824 / 512 * 512) % 512 = 0 := by
        rcases min_choice byte_size 1073741824 with hm | hm <;> (rw [hm]; try omega)
      have hle2 : byte_size - min byte_size 1073741824 / 512 * 512 ≤ 512 * f := by
        rcases min_choice byte_size 1073741824 with hm | hm <;> (rw [hm]; try omega)
      obtain ⟨reads, hloop, hmem, -⟩ := ih _ hmod2 hle2
      have hDB : min byte_size MAX_READ_SIZE / BLOCK_SIZE * BLOCK_SIZE =
          min byte_size 1073741824 / 512 * 512 := by rw [hB, hM]
      refine ⟨min byte_size 1073741824 / 512 * 512 :: reads, ?_, ?_, ?_⟩
      · simp only [direct_io_loop, h0, if_false, hDB]
        rw [if_neg (by omega), hloop, Option.map_some']
      · intro l hl
        rcases List.mem_cons.mp hl with hl | hl
        · subst hl
          exact ⟨by omega, by rw [hB]; omega, by rw [hM]; omega⟩
        · exact hmem l hl
      · unfold copy_using_direct_io_result
        simp only [direct_io_loop, h0, if_false, hDB]
        rw [if_neg (by omega), hloop, Option.map_some', Option.map_some']
        simp

/-- Witness for C3 at byte size 1024 with fuel 2. -/
theorem c3_direct_io_aligned_witness :
    1024 % BLOCK_SIZE = 0 ∧ 1024 ≤ BLOCK_SIZE * 2 ∧ DirectIOAlignedClaim 1024 2 :=
  ⟨by decide, by decide, c3_direct_io_aligned 1024 2 (by decide) (by decide)⟩

/-- Statement of C4 as amended, for a byte size that is not a multiple of the
block size: the loop terminates with remaining equal to the trailing partial
block, the bytes copied (the sum of the submitted read lengths) are exactly
512 * (byte_size / 512), the Linux implementation returns the failure value
-1, and the Windows implementation returns the last-error value of the
thread, which is 0 — reported as success — when no prior call recorded an
error. -/
def DirectIOUnalignedClaim (byte_size fuel lastError : Nat) : Prop :=
  ∃ reads, direct_io_loop fuel byte_size = some (reads, byte_size % BLOCK_SIZE) ∧
    reads.sum = BLOCK_SIZE * (byte_size / BLOCK_SIZE) ∧
    copy_using_direct_io_result fuel byte_size = some (-1) ∧
    copy_using_direct_io_result_win fuel byte_size lastError = some lastError

/-- C4 as amended: for every byte size that is not a multiple of 512, the
DirectIO loop, assuming full transfers for positive block-aligned lengths and
a zero result for the final zero-length read, terminates after copying
exactly 512 * (byte_size / 512) bytes; the Linux variant then returns the
nonzero failure value -1, while the Windows variant returns GetLastError(),
which reports false success when that value is 0. -/
theorem c4_direct_io_unaligned_amended (byte_size fuel lastError : Nat)
    (hmod : byte_size % BLOCK_SIZE ≠ 0) (hfuel : byte_size ≤ BLOCK_SIZE * fuel) :
    DirectIOUnalignedClaim byte_size fuel lastError := by
  have hB : BLOCK_SIZE = 512 := rfl
  have hM : MAX_READ_SIZE = 1073741824 := rfl
  rw [hB] at hmod hfuel
  induction fuel generalizing byte_size with
  | zero =>
    exact absurd (by omega : byte_size % 512 = 0) hmod
  | succ f ih =>
    have h0 : byte_size ≠ 0 := fun h => hmod (by omega)
    have hDB : min byte_size MAX_READ_SIZE / BLOCK_SIZE * BLOCK_SIZE =
        min byte_size 1073741824 / 512 * 512 := by rw [hB, hM]
    by_cases hsmall : byte_size < 512
    · have ht0 : min byte_size 1073741824 / 512 * 512 = 0 := by
        rcases min_choice byte_size 1073741824 with hm | hm <;> (rw [hm]; try omega)
      have hrem : byte_size % BLOCK_SIZE = byte_size := by rw [hB]; omega
      refine ⟨[0], ?_, ?_, ?_, ?_⟩
      · simp only [direct_io_loop, h0, if_false, hDB, ht0, hrem]
        simp
      · rw [hB]; simp; omega
      · unfold copy_using_direct_io_result
        simp only [direct_io_loop, h0, if_false, hDB, ht0]
        simp [h0]
      · unfold copy_using_direct_io_result_win
        simp only [direct_io_loop, h0, if_false, hDB, ht0]
        simp [h0]
    · have h512 : 512 ≤ byte_size := by omega
      have ht1 : 512 ≤ min byte_size 1073741824 / 512 * 512 := by
        rcases min_choice byte_size 1073741824 with hm | hm <;> (rw [hm]; try omega)
      have ht2 : min byte_size 1073741824 / 512 * 512 ≤ byte_size := by
        rcases min_choice byte_size 1073741824 with hm | hm <;> (rw [hm]; try omega)
      have htb : (min byte_size 1073741824 / 512 * 512) % 512 = 0 := by omega
      have hmod2 : (byte_size - min byte_size 1073741824 / 512 * 512) % 512 ≠ 0 := by
        omega
      have hle2 : byte_size - min byte_size 1073741824 / 512 * 512 ≤ 512 * f := by
        omega
      obtain ⟨reads, hloop, hsum, hres, hresw⟩ := ih _ hmod2 hle2
      have hremEq : (byte_size - min byte_size 1073741824 / 512 * 512) % BLOCK_SIZE =
          byte_size % BLOCK_SIZE := by rw [hB]; omega
      refine ⟨min byte_size 1073741824 / 512 * 512 :: reads, ?_, ?_, ?_, ?_⟩
      · simp only [direct_io_loop, h0, if_false, hDB]
        rw [if_neg (by omega), hloop, Option.map_some', ← hremEq]
      · rw [List.sum_cons, hsum, hB]
        omega
      · unfold copy_using_direct_io_result
        simp only [direct_io_loop, h0, if_false, hDB]
        rw [if_neg (by omega), hloop, Option.map_some', Option.map_some']
        have : (byte_size - min byte_size 1073741824 / 512 * 512) % BLOCK_SIZE ≠ 0 := by
          rw [hB]; omega
        simp [this]
      · unfold copy_using_direct_io_result_win
        simp only [direct_io_loop, h0, if_false, hDB]
        rw [if_neg (by omega), hloop, Option.map_some', Option.map_some']
        have : (byte_size - min byte_size 1073741824 / 512 * 512) % BLOCK_SIZE ≠ 0 := by
          rw [hB]; omega
        simp [this]

/-- Witness for C4 as amended at byte size 100 with fuel 1 and last error 7. -/
theorem c4_direct_io_unaligned_witness :
    100 % BLOCK_SIZE ≠ 0 ∧ 100 ≤ BLOCK_SIZE * 1 ∧ DirectIOUnalignedClaim 100 1 7 :=
  ⟨by decide, by decide, c4_direct_io_unaligned_amended 100 1 7 (by decide) (by decide)⟩

/-- Counterexample to C4 as stated: at byte size 100 — not a multiple of the
block size — the Windows variant with a clean last-error value returns 0,
reporting success for the short copy, so the claim that the strategy always
returns a nonzero failure is false. -/
theorem c4_direct_io_unaligned_counterexample :
    100 % BLOCK_SIZE ≠ 0 ∧ copy_using_direct_io_result_win 1 100 0 = some 0 := by
  constructor
  · decide
  · rfl

/-- Effect of ftruncate(dst_fd, file_size) (linux line 87) on the destination
byte contents: existing bytes are kept up to the new length and the file is
zero-extended beyond its old length. -/
def ftruncate (dst : List Nat) (size : Nat) : List Nat :=
  dst.take size ++ List.replicate (size - dst.length) 0

/-- Chunk sizes produced by the mmap copy loop (linux lines 96-116, windows
lines 134-185): each iteration maps chunk_size = min(remaining,
MMAP_CHUNK_SIZE) and advances by it. Returns the per-iteration chunk sizes in
order, or none when the fuel runs out before the loop exits. -/
def mmapChunkSizes : Nat → Nat → Option (List Nat)
  | 0, remaining => if remaining = 0 then some [] else none
  | fuel + 1, remaining =>
    if remaining = 0 then some []
    else
      (mmapChunkSizes fuel (remaining - min remaining MMAP_CHUNK_SIZE)).map
        (min remaining MMAP_CHUNK_SIZE :: ·)

/-- Effect of one iteration of the mmap loop on the destination contents:
memcpy(dst_map, src_map, chunk_size) through views mapped at offset copies
src[offset, offset + chunk) over dst[offset, offset + chunk). -/
def copyChunk (src dst : List Nat) (offset chunk : Nat) : List Nat :=
  dst.take offset ++ (src.drop offset).take chunk ++ dst.drop (offset + chunk)

/-- The mmap copy loop acting on destination contents, with the same chunk
schedule as mmapChunkSizes. -/
def mmapCopyLoop (src : List Nat) : Nat → Nat → Nat → List Nat → Option (List Nat)
  | 0, remaining, _, dst => if remaining = 0 then some dst else none
  | fuel + 1, remaining, offset, dst =>
    if remaining = 0 then some dst
    else
      mmapCopyLoop src fuel (remaining - min remaining MMAP_CHUNK_SIZE)
        (offset + min remaining MMAP_CHUNK_SIZE)
        (copyChunk src dst offset (min remaining MMAP_CHUNK_SIZE))

/-- copy_using_mmap (linux lines 80-121): truncate the destination to
file_size, then run the chunk loop. Returns the final destination contents on
success. -/
def copy_using_mmap (src dst : List Nat) (fuel file_size : Nat) : Option (List Nat) :=
  mmapCopyLoop src fuel file_size 0 (ftruncate dst file_size)

lemma ftruncate_length (dst : List Nat) (size : Nat) :
    (ftruncate dst size).length = size := by
  simp [ftruncate]
  omega

lemma copyChunk_length (src dst : List Nat) (offset chunk : Nat)
    (hoc : offset + chunk ≤ src.length) (hlen : dst.length = src.length) :
    (copyChunk src dst offset chunk).length = src.length := by
  simp [copyChunk]
  omega

lemma copyChunk_take (src dst : List Nat) (offset chunk : Nat)
    (hoc : offset + chunk ≤ src.length) (hlen : dst.length = src.length) :
    (copyChunk src dst offset chunk).take (offset + chunk) =
      dst.take offset ++ (src.drop offset).take chunk := by
  have h1 : (dst.take offset).length = offset := by
    rw [List.length_take]
    omega
  have h2 : ((src.drop offset).take chunk).length = chunk := by
    rw [List.length_take, List.length_drop]
    omega
  have h12 : (dst.take offset ++ (src.drop offset).take chunk).length =
      offset + chunk := by
    rw [List.length_append, h1, h2]
  rw [copyChunk, List.take_append_eq_append_take, h12,
    List.take_of_length_le (le_of_eq h12), Nat.sub_self, List.take_zero,
    List.append_nil]

lemma mmapCopyLoop_eq_src (src : List Nat) :
    ∀ fuel remaining offset dst, offset + remaining = src.length →
      dst.length = src.length → dst.take offset = src.take offset →
      remaining ≤ MMAP_CHUNK_SIZE * fuel →
      mmapCopyLoop src fuel remaining offset dst = some src := by
  have hC : MMAP_CHUNK_SIZE = 536870912 := rfl
  intro fuel
  induction fuel with
  | zero =>
    intro remaining offset dst h1 h2 h3 h4
    have hr : remaining = 0 := by omega
    subst hr
    have ho : offset = src.length := by omega
    subst ho
    rw [List.take_length, List.take_of_length_le (by omega)] at h3
    simp [mmapCopyLoop, h3]
  | succ f ih =>
    intro remaining offset dst h1 h2 h3 h4
    by_cases hr : remaining = 0
    · subst hr
      have ho : offset = src.length := by omega
      subst ho
      rw [List.take_length, List.take_of_length_le (by omega)] at h3
      simp [mmapCopyLoop, h3]
    · have hc1 : 0 < min remaining MMAP_CHUNK_SIZE := by
        rw [hC]
        omega
      have hc2 : min remaining MMAP_CHUNK_SIZE ≤ remaining := min_le_left _ _
      have hoc : offset + min remaining MMAP_CHUNK_SIZE ≤ src.length := by omega
      simp only [mmapCopyLoop, hr, if_false]
      apply ih
      · omega
      · exact copyChunk_length src dst offset _ hoc h2
      · rw [copyChunk_take src dst offset _ hoc h2, h3, ← List.take_add]
      · rw [hC] at h4 ⊢
        omega

lemma mmapChunkSizes_eq (fuel remaining : Nat)
    (hfuel : remaining ≤ MMAP_CHUNK_SIZE * fuel) :
    mmapChunkSizes fuel remaining =
      some (List.replicate (remaining / MMAP_CHUNK_SIZE) MMAP_CHUNK_SIZE ++
        (if remaining % MMAP_CHUNK_SIZE = 0 then []
         else [remaining % MMAP_CHUNK_SIZE])) := by
  have hC : MMAP_CHUNK_SIZE = 536870912 := rfl
  induction fuel generalizing remaining with
  | zero =>
    have hr : remaining = 0 := by omega
    subst hr
    simp [mmapChunkSizes]
  | succ f ih =>
    by_cases hr : remaining = 0
    · subst hr
      simp [mmapChunkSizes]
    · by_cases hsmall : remaining < MMAP_CHUNK_SIZE
      · have hm : min remaining MMAP_CHUNK_SIZE = remaining :=
          min_eq_left (by omega)
        have hdiv : remaining / MMAP_CHUNK_SIZE = 0 := Nat.div_eq_of_lt hsmall
        have hmod : remaining % MMAP_CHUNK_SIZE = remaining :=
          Nat.mod_eq_of_lt hsmall
        have hrec := ih 0 (by omega)
        simp only [mmapChunkSizes, hr, if_false, hm, Nat.sub_self, hrec,
          Option.map_some', hdiv, hmod]
        simp [hr]
      · have hm : min remaining MMAP_CHUNK_SIZE = MMAP_CHUNK_SIZE :=
          min_eq_right (by omega)
        have hrec := ih (remaining - MMAP_CHUNK_SIZE) (by rw [hC] at hfuel ⊢; omega)
        simp only [mmapChunkSizes, hr, if_false, hm, hrec, Option.map_some']
        have hdiv : remaining / MMAP_CHUNK_SIZE =
            (remaining - MMAP_CHUNK_SIZE) / MMAP_CHUNK_SIZE + 1 := by
          rw [hC] at hsmall ⊢
          omega
        have hmod : remaining % MMAP_CHUNK_SIZE =
            (remaining - MMAP_CHUNK_SIZE) % MMAP_CHUNK_SIZE := by
          rw [hC] at hsmall ⊢
          omega
        rw [hdiv, List.replicate_succ, hmod, List.cons_append]

/-- Statement of claim C5: the chunk schedule of the mmap copy is
file_size / MMAP_CHUNK_SIZE full chunks followed by the remainder when it is
nonzero; consequently every chunk is positive and at most the 512 MiB
ceiling and the chunk sizes sum to exactly file_size; and on success the
destination contents equal the source contents over the whole range. -/
def MmapClaim (src dst : List Nat) (fuel file_size : Nat) : Prop :=
  mmapChunkSizes fuel file_size =
      some (List.replicate (file_size / MMAP_CHUNK_SIZE) MMAP_CHUNK_SIZE ++
        (if file_size % MMAP_CHUNK_SIZE = 0 then []
         else [file_size % MMAP_CHUNK_SIZE])) ∧
  (∀ chunks, mmapChunkSizes fuel file_size = some chunks →
      chunks.sum = file_size ∧ ∀ ch ∈ chunks, 0 < ch ∧ ch ≤ MMAP_CHUNK_SIZE) ∧
  copy_using_mmap src dst fuel file_size = some src

/-- C5: for every file size and source content, the MemoryMapped copy loop
processes chunks of at most 512 MiB whose sizes sum to exactly the file
size, the last chunk being the remainder, and on success the destination
byte content over the copied range equals the source content. -/
theorem c5_mmap_copy (src dst : List Nat) (fuel file_size : Nat)
    (hsrc : src.length = file_size) (hfuel : file_size ≤ MMAP_CHUNK_SIZE * fuel) :
    MmapClaim src dst fuel file_size := by
  have hC : MMAP_CHUNK_SIZE = 536870912 := rfl
  have hchar := mmapChunkSizes_eq fuel file_size hfuel
  refine ⟨hchar, ?_, ?_⟩
  · intro chunks hc
    rw [hchar, Option.some.injEq] at hc
    subst hc
    constructor
    · rw [List.sum_append, List.sum_replicate, smul_eq_mul]
      by_cases hmod : file_size % MMAP_CHUNK_SIZE = 0
      · rw [if_pos hmod, List.sum_nil]
        rw [hC] at hmod ⊢
        omega
      · rw [if_neg hmod, List.sum_cons, List.sum_nil]
        rw [hC] at hmod ⊢
        omega
    · intro ch hch
      rcases List.mem_append.mp hch with hch | hch
      · have hcheq := List.eq_of_mem_replicate hch
        subst hcheq
        exact ⟨by rw [hC]; omega, le_refl _⟩
      · by_cases hmod : file_size % MMAP_CHUNK_SIZE = 0
        · rw [if_pos hmod] at hch
          exact absurd hch (List.not_mem_nil _)
        · rw [if_neg hmod] at hch
          have hcheq : ch = file_size % MMAP_CHUNK_SIZE := List.mem_singleton.mp hch
          subst hcheq
          rw [hC] at hmod ⊢
          exact ⟨by omega, by omega⟩
  · unfold copy_using_mmap
    apply mmapCopyLoop_eq_src src fuel file_size 0 (ftruncate dst file_size)
    · omega
    · rw [ftruncate_length, hsrc]
    · simp
    · exact hfuel

/-- Witness for C5 at a three-byte source with fuel 1. -/
theorem c5_mmap_copy_witness :
    ([1, 2, 3] : List Nat).length = 3 ∧ 3 ≤ MMAP_CHUNK_SIZE * 1 ∧
    MmapClaim [1, 2, 3] [] 1 3 :=
  ⟨rfl, by decide, c5_mmap_copy [1, 2, 3] [] 1 3 rfl (by decide)⟩

/-- Constant from the source: the DMA transfer block size, 2 MiB. -/
def dma_block_size : Nat := 2 * 1024 * 1024

/-- The verification read-back of copy_using_direct_io_memory_impact
(linux lines 206-208 and 218-220): for (i = 0; i < len; i += page_size)
checksum ^= word(base + i), folded into the running checksum. mem gives the
64-bit word stored at each byte offset of the buffers; since every read
happens right after memcpy copied that region from the source buffer, the
destination word equals the source word at the same offset, so one function
describes both buffers. The iteration count is the round-up len / page. -/
def stridedXor (mem : Nat → Nat) (page base len checksum : Nat) : Nat :=
  (List.range ((len + page - 1) / page)).foldl
    (fun acc i => acc ^^^ mem (base + i * page)) checksum

/-- The inner while (chunk_remaining >= dma_block_size) loop (linux lines
200-209): per full DMA block, copy then fold the per-page read-back into the
checksum. Returns the final buffer position, the remaining tail length and
the checksum, or none when the fuel runs out first. -/
def dmaBlocksLoop (mem : Nat → Nat) (page : Nat) :
    Nat → Nat → Nat → Nat → Option (Nat × Nat × Nat)
  | 0, pos, chunk_remaining, checksum =>
    if chunk_remaining < dma_block_size then some (pos, chunk_remaining, checksum)
    else none
  | fuel + 1, pos, chunk_remaining, checksum =>
    if chunk_remaining < dma_block_size then some (pos, chunk_remaining, checksum)
    else
      dmaBlocksLoop mem page fuel (pos + dma_block_size)
        (chunk_remaining - dma_block_size)
        (stridedXor mem page pos dma_block_size checksum)

/-- One outer iteration of copy_using_direct_io_memory_impact: the DMA block
loop followed by the tail handling (linux lines 212-221), which copies the
remaining bytes rounded up to a page multiple and folds the per-page
read-back over the rounded length. -/
def processChunk (mem : Nat → Nat) (page fuel chunk checksum : Nat) : Option Nat :=
  (dmaBlocksLoop mem page fuel 0 chunk checksum).map (fun s =>
    if 0 < s.2.1 then stridedXor mem page s.1 ((s.2.1 + page - 1) / page * page) s.2.2
    else s.2.2)

/-- The outer while (remaining > 0) loop of copy_using_direct_io_memory_impact
(linux lines 192-224, windows lines 267-299): per iteration process
current_chunk = min(remaining, MAX_READ_SIZE) and decrement remaining.
Returns the final checksum, or none when the fuel runs out first. -/
def memImpactLoop (mem : Nat → Nat) (page : Nat) : Nat → Nat → Nat → Option Nat
  | 0, remaining, checksum => if remaining = 0 then some checksum else none
  | fuel + 1, remaining, checksum =>
    if remaining = 0 then some checksum
    else
      match processChunk mem page fuel (min remaining MAX_READ_SIZE) checksum with
      | some c2 => memImpactLoop mem page fuel (remaining - min remaining MAX_READ_SIZE) c2
      | none => none

/-- Return value of the Linux copy_using_direct_io_memory_impact (line 229):
(checksum != 0) ? 0 : -1. -/
def copy_using_direct_io_memory_impact (mem : Nat → Nat)
    (page fuel byte_size : Nat) : Option Int :=
  (memImpactLoop mem page fuel byte_size 0).map (fun c => if c = 0 then -1 else 0)

/-- Return value of the Windows copy_using_direct_io_memory_impact (line 305):
(checksum != 0) ? 0 : GetLastError(), with lastError the last-error value of
the calling thread at the return point. -/
def copy_using_direct_io_memory_impact_win (mem : Nat → Nat)
    (page fuel byte_size lastError : Nat) : Option Nat :=
  (memImpactLoop mem page fuel byte_size 0).map
    (fun c => if c = 0 then lastError else 0)

/-- Statement of C6 as amended, conditional on the checksum the transfer loop
computed: the Linux strategy returns success exactly when the checksum is
nonzero and the failure value -1 exactly when it is zero, while the Windows
strategy returns success when the checksum is nonzero but otherwise returns
the last-error value, which reports success when that value is 0. -/
def MemImpactResultClaim (mem : Nat → Nat)
    (page fuel byte_size lastError c : Nat) : Prop :=
  (copy_using_direct_io_memory_impact mem page fuel byte_size = some 0 ↔ c ≠ 0) ∧
  (copy_using_direct_io_memory_impact mem page fuel byte_size = some (-1) ↔ c = 0) ∧
  (c ≠ 0 →
    copy_using_direct_io_memory_impact_win mem page fuel byte_size lastError = some 0) ∧
  (c = 0 →
    copy_using_direct_io_memory_impact_win mem page fuel byte_size lastError =
      some lastError)

/-- C6 as amended: on Linux, the MemoryBandwidthSimulation strategy returns
success if and only if the running XOR checksum is nonzero, and failure
exactly when it is zero; on Windows a zero checksum yields GetLastError()
instead, which is a false success when the last-error value is 0. -/
theorem c6_mem_impact_checksum_amended (mem : Nat → Nat)
    (page fuel byte_size lastError c : Nat)
    (h : memImpactLoop mem page fuel byte_size 0 = some c) :
    MemImpactResultClaim mem page fuel byte_size lastError c := by
  unfold MemImpactResultClaim copy_using_direct_io_memory_impact
    copy_using_direct_io_memory_impact_win
  rw [h, Option.map_some', Option.map_some']
  by_cases hc : c = 0
  · subst hc
    refine ⟨?_, ?_, ?_, ?_⟩ <;> simp
  · refine ⟨?_, ?_, ?_, ?_⟩ <;> simp [hc]

/-- Witness for C6 as amended: with every word equal to 1, page size 4096 and
byte size 4096, the loop computes checksum 1 and both variants succeed. -/
theorem c6_mem_impact_checksum_witness :
    memImpactLoop (fun _ => 1) 4096 1 4096 0 = some 1 ∧
    MemImpactResultClaim (fun _ => 1) 4096 1 4096 5 1 :=
  ⟨by decide, c6_mem_impact_checksum_amended (fun _ => 1) 4096 1 4096 5 1 (by decide)⟩

/-- Counterexample to C6 as stated: at byte size 0 the loop never runs and the
checksum stays 0, yet the Windows variant with a clean last-error value
returns 0 — success — contradicting the claim that a zero checksum is always
reported as failure. -/
theorem c6_mem_impact_checksum_counterexample :
    memImpactLoop (fun _ => 0) 4096 1 0 0 = some 0 ∧
    copy_using_direct_io_memory_impact_win (fun _ => 0) 4096 1 0 0 = some 0 := by
  constructor
  · rfl
  · rfl

/-- BenchmarkResult (linux lines 452-459, windows lines 43-50): per-file
measurements, with the C doubles modelled as rationals. -/
structure BenchmarkResult where
  size_mib : ℚ
  memory_duration : ℚ
  memory_speed : ℚ
  disk_duration : ℚ
  disk_speed : ℚ

/-- The total_size accumulation of handle_benchmark (linux lines 543-545):
total_size += results[i].size_mib, starting from 0. -/
def totalSize (results : List BenchmarkResult) : ℚ :=
  results.foldl (fun acc r => acc + r.size_mib) 0

/-- The total_memory_duration accumulation (linux line 546):
total_memory_duration = fmax(total_memory_duration, results[i].memory_duration),
starting from 0. -/
def totalMemoryDuration (results : List BenchmarkResult) : ℚ :=
  results.foldl (fun acc r => max acc r.memory_duration) 0

/-- The total_disk_duration accumulation (linux line 547). -/
def totalDiskDuration (results : List BenchmarkResult) : ℚ :=
  results.foldl (fun acc r => max acc r.disk_duration) 0

/-- avg_memory_speed = total_size / total_memory_duration (linux line 549). -/
def avgMemorySpeed (results : List BenchmarkResult) : ℚ :=
  totalSize results / totalMemoryDuration results

/-- avg_disk_speed = total_size / total_disk_duration (linux line 550). -/
def avgDiskSpeed (results : List BenchmarkResult) : ℚ :=
  totalSize results / totalDiskDuration results

/-- The saturation check (linux lines 574-577): the warning is printed exactly
when speed_ratio = avg_disk_speed / avg_memory_speed is at least 0.95. -/
def memoryBandwidthWall (results : List BenchmarkResult) : Prop :=
  avgDiskSpeed results / avgMemorySpeed results ≥ 95 / 100

/-- The per-task speed computation of copy_file_thread (linux line 261):
task->speed = task->size_mib / task->duration, with no guard on the
denominator. -/
def taskSpeed (size_mib duration : ℚ) : ℚ := size_mib / duration

lemma foldl_add_eq (f : BenchmarkResult → ℚ) :
    ∀ (l : List BenchmarkResult) (a : ℚ),
      l.foldl (fun acc r => acc + f r) a = a + (l.map f).sum := by
  intro l
  induction l with
  | nil => intro a; simp
  | cons hd tl ih =>
    intro a
    simp only [List.foldl_cons, List.map_cons, List.sum_cons, ih (a + f hd)]
    ring

lemma foldl_max_spec (f : BenchmarkResult → ℚ) :
    ∀ (l : List BenchmarkResult) (a : ℚ),
      a ≤ l.foldl (fun acc r => max acc (f r)) a ∧
      (∀ r ∈ l, f r ≤ l.foldl (fun acc r => max acc (f r)) a) ∧
      (l.foldl (fun acc r => max acc (f r)) a = a ∨
        l.foldl (fun acc r => max acc (f r)) a ∈ l.map f) := by
  intro l
  induction l with
  | nil => intro a; simp
  | cons hd tl ih =>
    intro a
    obtain ⟨h1, h2, h3⟩ := ih (max a (f hd))
    refine ⟨le_trans (le_max_left _ _) h1, ?_, ?_⟩
    · intro r hr
      rcases List.mem_cons.mp hr with hr | hr
      · subst hr
        exact le_trans (le_max_right _ _) h1
      · exact h2 r hr
    · rcases h3 with h | h
      · rcases max_choice a (f hd) with hm | hm
        · exact Or.inl (h.trans hm)
        · exact Or.inr (by
            rw [List.map_cons, List.foldl_cons, h, hm]
            exact List.mem_cons_self _ _)
      · exact Or.inr (by
          rw [List.map_cons, List.foldl_cons]
          exact List.mem_cons_of_mem _ h)

lemma foldl_max_mem (f : BenchmarkResult → ℚ) (l : List BenchmarkResult)
    (hne : l ≠ []) (hnn : ∀ r ∈ l, 0 ≤ f r) :
    l.foldl (fun acc r => max acc (f r)) 0 ∈ l.map f := by
  obtain ⟨h1, h2, h3⟩ := foldl_max_spec f l 0
  rcases h3 with h | h
  · match l, hne with
    | hd :: tl, _ =>
      have hle := h2 hd (List.mem_cons_self _ _)
      have hge := hnn hd (List.mem_cons_self _ _)
      rw [List.map_cons]
      rw [h] at hle ⊢
      have : f hd = 0 := le_antisymm hle hge
      rw [← this]
      exact List.mem_cons_self _ _
  · exact h

/-- Statement of claim C7: the comparator computes total_size as the sum of
the per-file sizes, the total durations as maxima of the per-file durations
(each total is attained by some file and bounds every file), the average
speeds as the corresponding quotients, and raises the memory-bandwidth-wall
flag exactly when the disk-to-memory speed ratio is at least 0.95. -/
def BenchmarkAggregationClaim (results : List BenchmarkResult) : Prop :=
  totalSize results = (results.map (fun r => r.size_mib)).sum ∧
  totalMemoryDuration results ∈ results.map (fun r => r.memory_duration) ∧
  (∀ r ∈ results, r.memory_duration ≤ totalMemoryDuration results) ∧
  totalDiskDuration results ∈ results.map (fun r => r.disk_duration) ∧
  (∀ r ∈ results, r.disk_duration ≤ totalDiskDuration results) ∧
  avgMemorySpeed results = totalSize results / totalMemoryDuration results ∧
  avgDiskSpeed results = totalSize results / totalDiskDuration results ∧
  (memoryBandwidthWall results ↔
    avgDiskSpeed results / avgMemorySpeed results ≥ 95 / 100)

/-- C7: for every nonempty list of per-file measurements with nonnegative
durations, the comparator aggregation matches the specified formulas: sum
for sizes, maximum for durations, quotient for speeds, and a saturation flag
raised exactly at ratio at least 0.95. -/
theorem c7_benchmark_aggregation (results : List BenchmarkResult)
    (hne : results ≠ [])
    (hmem : ∀ r ∈ results, 0 ≤ r.memory_duration)
    (hdisk : ∀ r ∈ results, 0 ≤ r.disk_duration) :
    BenchmarkAggregationClaim results := by
  refine ⟨?_, ?_, ?_, ?_, ?_, rfl, rfl, Iff.rfl⟩
  · rw [totalSize, foldl_add_eq, zero_add]
  · exact foldl_max_mem _ results hne hmem
  · exact (foldl_max_spec (fun r => r.memory_duration) results 0).2.1
  · exact foldl_max_mem _ results hne hdisk
  · exact (foldl_max_spec (fun r => r.disk_duration) results 0).2.1

/-- Sample benchmark run: two 50 MiB files, memory pass 2 s each, disk pass
1 s each. -/
def sampleResults : List BenchmarkResult :=
  [⟨50, 2, 25, 1, 50⟩, ⟨50, 2, 25, 1, 50⟩]

/-- Witness for C7 at the two-file 50 MiB sample run. -/
theorem c7_benchmark_aggregation_witness :
    sampleResults ≠ [] ∧ BenchmarkAggregationClaim sampleResults :=
  ⟨by simp [sampleResults],
    c7_benchmark_aggregation sampleResults (by simp [sampleResults])
      (by intro r hr; fin_cases hr <;> norm_num)
      (by intro r hr; fin_cases hr <;> norm_num)⟩

/-- A run in which both measured durations are zero for a 50 MiB file, as
happens when the clock delta rounds to zero. -/
def zeroDurationRun : List BenchmarkResult := [⟨50, 0, 0, 0, 0⟩]

/-- Counterexample to C8 as stated: the speed divisions are not guarded. In
the zero-duration run with a positive file size, the denominators of both
aggregate speed divisions are zero — the code divides anyway (in C the
quotient is the undefined IEEE value; the rational model returns the
degenerate value 0) — and the reported average memory speed is not a
positive number. The per-task division at duration zero behaves the same. -/
theorem c8_speed_guard_counterexample :
    0 < totalSize zeroDurationRun ∧
    totalMemoryDuration zeroDurationRun = 0 ∧
    totalDiskDuration zeroDurationRun = 0 ∧
    avgMemorySpeed zeroDurationRun = totalSize zeroDurationRun / 0 ∧
    ¬ 0 < avgMemorySpeed zeroDurationRun ∧
    taskSpeed 50 0 = 50 / 0 := by
  refine ⟨?_, ?_, ?_, ?_, ?_, rfl⟩
  · norm_num [totalSize, zeroDurationRun]
  · norm_num [totalMemoryDuration, zeroDurationRun]
  · norm_num [totalDiskDuration, zeroDurationRun]
  · rw [avgMemorySpeed]
    norm_num [totalMemoryDuration, zeroDurationRun]
  · rw [avgMemorySpeed]
    norm_num [totalMemoryDuration, zeroDurationRun]

/-- Statement of C8 as amended for the aggregate computations: with positive
totals the average speeds are positive and the saturation flag is computed
from the well-defined ratio of the two. -/
def SpeedGuardClaim (results : List BenchmarkResult) : Prop :=
  0 < totalSize results ∧
  0 < avgMemorySpeed results ∧
  0 < avgDiskSpeed results ∧
  (memoryBandwidthWall results ↔
    avgDiskSpeed results / avgMemorySpeed results ≥ 95 / 100)

/-- C8 as amended: the speed divisions carry no zero-denominator guard, so
the conclusion of the claim holds only on runs whose measured durations are
positive: then per-task speeds and both aggregate speeds are positive and
the saturation flag is computed from a well-defined ratio. -/
theorem c8_speed_positive_amended (results : List BenchmarkResult)
    (hne : results ≠ [])
    (hsize : ∀ r ∈ results, 0 < r.size_mib)
    (hmemdur : 0 < totalMemoryDuration results)
    (hdiskdur : 0 < totalDiskDuration results) :
    SpeedGuardClaim results ∧
      ∀ s d : ℚ, 0 < s → 0 < d → 0 < taskSpeed s d := by
  have htot : 0 < totalSize results := by
    rw [totalSize, foldl_add_eq, zero_add]
    refine List.sum_pos _ (fun x hx => ?_) (by simpa using hne)
    obtain ⟨r, hr, rfl⟩ := List.mem_map.mp hx
    exact hsize r hr
  refine ⟨⟨htot, ?_, ?_, Iff.rfl⟩, fun s d hs hd => div_pos hs hd⟩
  · exact div_pos htot hmemdur
  · exact div_pos htot hdiskdur

/-- Witness for C8 as amended at the two-file 50 MiB sample run. -/
theorem c8_speed_positive_witness :
    sampleResults ≠ [] ∧ 0 < totalMemoryDuration sampleResults ∧
    0 < totalDiskDuration sampleResults ∧
    (SpeedGuardClaim sampleResults ∧
      ∀ s d : ℚ, 0 < s → 0 < d → 0 < taskSpeed s d) :=
  ⟨by simp [sampleResults],
    by norm_num [totalMemoryDuration, sampleResults],
    by norm_num [totalDiskDuration, sampleResults],
    c8_speed_positive_amended sampleResults (by simp [sampleResults])
      (by intro r hr; fin_cases hr <;> norm_num)
      (by norm_num [totalMemoryDuration, sampleResults])
      (by norm_num [totalDiskDuration, sampleResults])⟩

/-- The Linux generation buffer (generate_test_file lines 293-316): a 1 MiB
buffer filled once by the generator from the fixed constants; the initial
contents are irrelevant since the length is a multiple of 8. -/
def gen_buffer_linux : List Nat :=
  (fill_buffer_with_random_data init_random_generator
    (List.replicate (1024 * 1024) 0)).2

/-- The Windows generation buffer (generate_test_file lines 315-323): a
512-byte buffer filled once by the generator from the fixed constants. -/
def gen_buffer_win : List Nat :=
  (fill_buffer_with_random_data init_random_generator (List.replicate 512 0)).2

/-- Content written by the Linux generate_test_file loop (lines 319-332),
with full writes assumed: every iteration writes the first
(min(remaining, 1 MiB) / 512) * 512 bytes of buf, always from the start of
buf. Returns the file contents, or none when the fuel runs out first. -/
def generate_test_file_content (buf : List Nat) : Nat → Nat → Option (List Nat)
  | 0, remaining => if remaining = 0 then some [] else none
  | fuel + 1, remaining =>
    if remaining = 0 then some []
    else
      (generate_test_file_content buf fuel
          (remaining - min remaining (1024 * 1024) / 512 * 512)).map
        (buf.take (min remaining (1024 * 1024) / 512 * 512) ++ ·)

/-- Content written by the Windows generate_test_file loop (lines 326-335),
with full writes assumed: every iteration writes the first
min(remaining, 512) bytes of buf, always from the start of buf. -/
def generate_test_file_content_win (buf : List Nat) : Nat → Nat → Option (List Nat)
  | 0, remaining => if remaining = 0 then some [] else none
  | fuel + 1, remaining =>
    if remaining = 0 then some []
    else
      (generate_test_file_content_win buf fuel (remaining - min remaining 512)).map
        (buf.take (min remaining 512) ++ ·)

lemma generate_content_win_periodic (buf : List Nat) (hlen : buf.length = 512) :
    ∀ fuel size, size ≤ 512 * fuel →
      generate_test_file_content_win buf fuel size =
        some ((List.replicate (size / 512) buf).flatten ++ buf.take (size % 512)) := by
  intro fuel
  induction fuel with
  | zero =>
    intro size hle
    have hz : size = 0 := by omega
    subst hz
    simp [generate_test_file_content_win]
  | succ f ih =>
    intro size hle
    by_cases h0 : size = 0
    · subst h0
      simp [generate_test_file_content_win]
    · by_cases hlt : size < 512
      · have hm : min size 512 = size := min_eq_left (by omega)
        have hrec := ih 0 (by omega)
        simp only [generate_test_file_content_win, h0, if_false, hm, Nat.sub_self,
          hrec, Option.map_some']
        have hdiv : size / 512 = 0 := Nat.div_eq_of_lt hlt
        have hmod : size % 512 = size := Nat.mod_eq_of_lt hlt
        rw [hdiv, hmod]
        simp
      · have hm : min size 512 = 512 := min_eq_right (by omega)
        have hrec := ih (size - 512) (by omega)
        simp only [generate_test_file_content_win, h0, if_false, hm, hrec,
          Option.map_some']
        have htake : buf.take 512 = buf := by
          rw [← hlen, List.take_length]
        have hdiv : size / 512 = (size - 512) / 512 + 1 := by omega
        have hmod : size % 512 = (size - 512) % 512 := by omega
        rw [htake, hdiv, List.replicate_succ, hmod, List.flatten_cons,
          List.append_assoc]

lemma generate_content_linux_periodic (buf : List Nat)
    (hlen : buf.length = 1024 * 1024) :
    ∀ fuel size, size % 512 = 0 → size ≤ 512 * fuel →
      generate_test_file_content buf fuel size =
        some ((List.replicate (size / (1024 * 1024)) buf).flatten ++
          buf.take (size % (1024 * 1024))) := by
  intro fuel
  induction fuel with
  | zero =>
    intro size hmod hle
    have hz : size = 0 := by omega
    subst hz
    simp [generate_test_file_content]
  | succ f ih =>
    intro size hmod hle
    by_cases h0 : size = 0
    · subst h0
      simp [generate_test_file_content]
    · by_cases hlt : size < 1024 * 1024
      · have hm : min size (1024 * 1024) = size := min_eq_left (by omega)
        have hw : size / 512 * 512 = size := by omega
        have hrec := ih 0 (by omega) (by omega)
        simp only [generate_test_file_content, h0, if_false, hm, hw, Nat.sub_self,
          hrec, Option.map_some']
        have hdiv : size / (1024 * 1024) = 0 := Nat.div_eq_of_lt hlt
        have hmodM : size % (1024 * 1024) = size := Nat.mod_eq_of_lt hlt
        rw [hdiv, hmodM]
        simp
      · have hm : min size (1024 * 1024) = 1024 * 1024 := min_eq_right (by omega)
        have hw : 1024 * 1024 / 512 * 512 = 1024 * 1024 := by norm_num
        have hrec := ih (size - 1024 * 1024) (by omega) (by omega)
        simp only [generate_test_file_content, h0, if_false, hm, hw, hrec,
          Option.map_some']
        have htake : buf.take (1024 * 1024) = buf := by
          rw [← hlen, List.take_length]
        have hdiv : size / (1024 * 1024) = (size - 1024 * 1024) / (1024 * 1024) + 1 := by
          omega
        have hmodM : size % (1024 * 1024) = (size - 1024 * 1024) % (1024 * 1024) := by
          omega
        rw [htake, hdiv, List.replicate_succ, hmodM, List.flatten_cons,
          List.append_assoc]

lemma gen_buffer_win_eq :
    gen_buffer_win = (List.range 512).map (stream_byte init_random_generator) := by
  unfold gen_buffer_win fill_buffer_with_random_data
  rw [List.length_replicate]
  have h8 : (512 : Nat) / 8 = 64 := by norm_num
  rw [h8]
  have h8b : 8 * (64 : Nat) = 512 := by norm_num
  rw [h8b, List.drop_eq_nil_of_le (le_of_eq (List.length_replicate _ _)),
    List.append_nil, wordBytes_eq_stream, h8b]

lemma gen_buffer_win_length : gen_buffer_win.length = 512 := by
  rw [gen_buffer_win_eq, List.length_map, List.length_range]

lemma gen_buffer_linux_eq :
    gen_buffer_linux =
      (List.range (1024 * 1024)).map (stream_byte init_random_generator) := by
  unfold gen_buffer_linux fill_buffer_with_random_data
  rw [List.length_replicate]
  have h8 : (1024 * 1024 : Nat) / 8 = 131072 := by norm_num
  rw [h8]
  have h8b : 8 * (131072 : Nat) = 1024 * 1024 := by norm_num
  rw [h8b, List.drop_eq_nil_of_le (le_of_eq (List.length_replicate _ _)),
    List.append_nil, wordBytes_eq_stream, h8b]

lemma gen_buffer_linux_length : gen_buffer_linux.length = 1024 * 1024 := by
  rw [gen_buffer_linux_eq, List.length_map, List.length_range]

lemma map_range_take (f : Nat → Nat) (n m : Nat) (h : m ≤ n) :
    ((List.range n).map f).take m = (List.range m).map f := by
  rw [← List.map_take, List.take_range, min_eq_left h]

/-- Statement of C9 as amended: each generation buffer holds exactly the
first bytes of the LCG stream (512 bytes on Windows, 1 MiB on Linux); the
generated file is that buffer repeated, the final chunk being a truncated
copy of its front; hence the file content equals the first size bytes of the
LCG stream exactly when the requested size is at most the buffer size, the
Linux loop additionally requiring a block-aligned size. -/
def GenerateContentClaim : Prop :=
  gen_buffer_win = (List.range 512).map (stream_byte init_random_generator) ∧
  gen_buffer_linux =
    (List.range (1024 * 1024)).map (stream_byte init_random_generator) ∧
  (∀ fuel size, size ≤ 512 * fuel →
      generate_test_file_content_win gen_buffer_win fuel size =
        some ((List.replicate (size / 512) gen_buffer_win).flatten ++
          gen_buffer_win.take (size % 512))) ∧
  (∀ fuel size, size % 512 = 0 → size ≤ 512 * fuel →
      generate_test_file_content gen_buffer_linux fuel size =
        some ((List.replicate (size / (1024 * 1024)) gen_buffer_linux).flatten ++
          gen_buffer_linux.take (size % (1024 * 1024)))) ∧
  (∀ fuel size, size ≤ 512 → size ≤ 512 * fuel →
      generate_test_file_content_win gen_buffer_win fuel size =
        some ((List.range size).map (stream_byte init_random_generator))) ∧
  (∀ fuel size, size % 512 = 0 → size ≤ 1024 * 1024 → size ≤ 512 * fuel →
      generate_test_file_content gen_buffer_linux fuel size =
        some ((List.range size).map (stream_byte init_random_generator)))

/-- C9 as amended: the generated file consists of the fill-buffer block —
itself the first bytes of the LCG stream — written repeatedly from its
start, so content equals the first size bytes of the stream exactly for
sizes up to the buffer size, and is periodic with the buffer length beyond
it. -/
theorem c9_generate_content_amended : GenerateContentClaim := by
  refine ⟨gen_buffer_win_eq, gen_buffer_linux_eq, ?_, ?_, ?_, ?_⟩
  · intro fuel size hle
    exact generate_content_win_periodic gen_buffer_win gen_buffer_win_length fuel
      size hle
  · intro fuel size hmod hle
    exact generate_content_linux_periodic gen_buffer_linux gen_buffer_linux_length
      fuel size hmod hle
  · intro fuel size h512 hle
    rw [generate_content_win_periodic gen_buffer_win gen_buffer_win_length fuel
      size hle]
    by_cases heq : size = 512
    · subst heq
      have hdiv : (512 : Nat) / 512 = 1 := by norm_num
      have hmod : (512 : Nat) % 512 = 0 := by norm_num
      rw [hdiv, hmod, List.take_zero, List.append_nil, List.replicate_one]
      simp only [List.flatten_cons, List.flatten_nil, List.append_nil]
      exact congrArg some gen_buffer_win_eq
    · have hlt : size < 512 := by omega
      have hdiv : size / 512 = 0 := Nat.div_eq_of_lt hlt
      have hmod : size % 512 = size := Nat.mod_eq_of_lt hlt
      rw [hdiv, hmod, List.replicate_zero, List.flatten_nil, List.nil_append,
        gen_buffer_win_eq, map_range_take _ _ _ (by omega)]
  · intro fuel size hmod hM hle
    rw [generate_content_linux_periodic gen_buffer_linux gen_buffer_linux_length
      fuel size hmod hle]
    by_cases heq : size = 1024 * 1024
    · subst heq
      have hdiv : (1024 * 1024 : Nat) / (1024 * 1024) = 1 := by norm_num
      have hmodM : (1024 * 1024 : Nat) % (1024 * 1024) = 0 := by norm_num
      rw [hdiv, hmodM, List.take_zero, List.append_nil, List.replicate_one]
      simp only [List.flatten_cons, List.flatten_nil, List.append_nil]
      exact congrArg some gen_buffer_linux_eq
    · have hlt : size < 1024 * 1024 := by omega
      have hdiv : size / (1024 * 1024) = 0 := Nat.div_eq_of_lt hlt
      have hmodM : size % (1024 * 1024) = size := Nat.mod_eq_of_lt hlt
      rw [hdiv, hmodM, List.replicate_zero, List.flatten_nil, List.nil_append,
        gen_buffer_linux_eq, map_range_take _ _ _ (by omega)]

/-- Witness for C9 as amended: a Windows generation of 1024 bytes is the
512-byte buffer written twice. -/
theorem c9_generate_content_witness :
    generate_test_file_content_win gen_buffer_win 2 1024 =
      some ((List.replicate 2 gen_buffer_win).flatten ++ gen_buffer_win.take 0) := by
  have h := c9_generate_content_amended.2.2.1 2 1024 (by norm_num)
  rw [show (1024 : Nat) / 512 = 2 by norm_num,
    show (1024 : Nat) % 512 = 0 by norm_num] at h
  exact h

set_option maxRecDepth 100000 in
/-- Counterexample to C9 as stated: a Windows generation of 1024 bytes — twice
the 512-byte fill buffer — repeats the first 512 stream bytes instead of
continuing the stream, so the file content differs from the first 1024 bytes
of the LCG word stream. -/
theorem c9_generate_content_counterexample :
    generate_test_file_content_win gen_buffer_win 2 1024 ≠
      some ((List.range 1024).map (stream_byte init_random_generator)) := by
  decide

/-- C10: at byte size zero, the MemoryMapped strategy truncates the
destination to the empty content and succeeds without entering its chunk
loop (the chunk schedule is empty); the DirectIO strategy succeeds without
submitting any read or write (the read list is empty and remaining is zero);
and the MemoryBandwidthSimulation strategy fails, because its copy loop
never executes, the checksum stays zero, and the Linux return value maps a
zero checksum to -1. -/
theorem c10_zero_byte_size (src dst : List Nat) (mem : Nat → Nat)
    (page fuel : Nat) :
    ftruncate dst 0 = [] ∧
    mmapChunkSizes fuel 0 = some [] ∧
    copy_using_mmap src dst fuel 0 = some [] ∧
    direct_io_loop fuel 0 = some ([], 0) ∧
    copy_using_direct_io_result fuel 0 = some 0 ∧
    memImpactLoop mem page fuel 0 0 = some 0 ∧
    copy_using_direct_io_memory_impact mem page fuel 0 = some (-1) := by
  have htr : ftruncate dst 0 = [] := by
    simp [ftruncate]
  refine ⟨htr, ?_, ?_, ?_, ?_, ?_, ?_⟩
  · cases fuel <;> simp [mmapChunkSizes]
  · unfold copy_using_mmap
    rw [htr]
    cases fuel <;> simp [mmapCopyLoop]
  · cases fuel <;> simp [direct_io_loop]
  · unfold copy_using_direct_io_result
    cases fuel <;> simp [direct_io_loop]
  · cases fuel <;> simp [memImpactLoop]
  · unfold copy_using_direct_io_memory_impact
    cases fuel <;> simp [memImpactLoop]
